import Mathlib

/-!
Shallow embedding of the Express referral service (the most complete variant:
the file defining the 9-character `userid` primary key, the `referred_users`
array column and the `/bulk-lookup` route).  Each HTTP handler becomes a pure
function from the request fields and the current table contents to a response
and the new table contents.  The sources of nondeterminism in the source are
surfaced as parameters:

* `generateUserId()` produces a random 9-character string; the generated
  string is passed in as the `id` argument;
* `DataTypes.NOW` is passed in as the `now` argument;
* `referrer.save()` may be rejected by the store; whether it succeeds is the
  `saveOk` argument.

The store-side uniqueness constraints (`userid` primary key,
`wallet_address` unique) are modelled inside `dbInsert`: `User.create`
rejects a row that collides on either column, and the handler's `catch`
turns that rejection into a 500 response.
-/

namespace Referral

/-- A row of the `users` table, as declared by `sequelize.define('User', ...)`
in the most complete variant: `userid` (9-char primary key),
`wallet_address` (unique, non-null), `referred_by` (nullable),
`referred_users` (string array, default `[]`), `total_referrals`
(integer, default 0), `created_at` (default now, modelled as a `Nat`). -/
structure User where
  userid : String
  wallet_address : String
  referred_by : Option String
  referred_users : List String
  total_referrals : Nat
  created_at : Nat
deriving DecidableEq, Repr

/-- The `users` table: a list of rows in insertion order. -/
abbrev Store := List User

/-- The JSON bodies the handlers produce. -/
inductive Body where
  /-- `{error: msg}` -/
  | error (msg : String)
  /-- the 201 body of POST `/register` -/
  | registered (message userid wallet referral_link : String)
  /-- the 201 body of POST `/register-referred` -/
  | referredOk (message userid wallet : String) (referrer_new_total : Nat)
  /-- the 200 body of POST `/bulk-lookup`: `{mapping: {address: userid}}` -/
  | mapping (m : List (String × String))
  /-- the 200 body of the read-only user lookups -/
  | userInfo (u : User)
deriving DecidableEq, Repr

/-- An HTTP response: status code plus JSON body. -/
structure Resp where
  status : Nat
  body : Body
deriving DecidableEq, Repr

/-- `User.create`: the store accepts the new row only when neither the
`userid` primary key nor the unique `wallet_address` column collides with an
existing row; a collision makes the returned promise reject, which the
handler's `catch` observes as an error with a message. -/
def dbInsert (u : User) (s : Store) : Except String Store :=
  if s.any (fun v => v.userid == u.userid) then
    Except.error "duplicate key value violates unique constraint"
  else if s.any (fun v => v.wallet_address == u.wallet_address) then
    Except.error "duplicate key value violates unique constraint"
  else
    Except.ok (s ++ [u])

/-- The referral link built by the register handler. -/
def referralLink (userid : String) : String :=
  "http://localhost:3000/referral/" ++ userid

/-- POST `/register`.  `w` is the request's `wallet_address` (the empty
string standing for any falsy value), `id` the string returned by
`generateUserId()`, `now` the creation timestamp. -/
def register (w id : String) (now : Nat) (s : Store) : Resp × Store :=
  if w = "" then
    (⟨400, Body.error "Missing wallet_address"⟩, s)
  else
    match s.find? (fun u => u.wallet_address == w) with
    | some _ => (⟨400, Body.error "This wallet address is already registered."⟩, s)
    | none =>
      let newUser : User := ⟨id, w, none, [], 0, now⟩
      match dbInsert newUser s with
      | Except.error m => (⟨500, Body.error m⟩, s)
      | Except.ok s' =>
        (⟨201, Body.registered "User registered successfully" id w (referralLink id)⟩, s')

/-- The in-place update the referred-registration handler performs on the
referrer's row: `referrer.referred_users = [...referrer.referred_users,
userid]; referrer.total_referrals += 1`. -/
def applyReferral (r id : String) (u : User) : User :=
  if u.userid == r then
    { u with referred_users := u.referred_users ++ [id],
             total_referrals := u.total_referrals + 1 }
  else u

/-- POST `/register-referred`.  `w` and `r` are the request's
`wallet_address` and `referred_by`; `id` is the generated userid; `saveOk`
is whether the store accepts `referrer.save()`.  The handler checks the
fields, then the duplicate wallet, then the referrer's existence (by
`userid`), inserts the new row, and only then updates the referrer's row;
when the save is rejected the exception reaches the `catch`, so the
response is a 500 and the freshly inserted row remains in the table. -/
def registerReferred (w r id : String) (now : Nat) (saveOk : Bool) (s : Store) :
    Resp × Store :=
  if w = "" ∨ r = "" then
    (⟨400, Body.error "Missing wallet_address or referred_by"⟩, s)
  else
    match s.find? (fun u => u.wallet_address == w) with
    | some _ => (⟨400, Body.error "This wallet address is already registered."⟩, s)
    | none =>
      match s.find? (fun u => u.userid == r) with
      | none => (⟨404, Body.error "Referrer not found"⟩, s)
      | some referrer =>
        let newUser : User := ⟨id, w, some r, [], 0, now⟩
        match dbInsert newUser s with
        | Except.error m => (⟨500, Body.error m⟩, s)
        | Except.ok s1 =>
          if saveOk then
            (⟨201, Body.referredOk "User registered with referral successfully" id w
                (referrer.total_referrals + 1)⟩,
             s1.map (applyReferral r id))
          else
            (⟨500, Body.error "save rejected by store"⟩, s1)

/-- GET `/user/:wallet_address`: a pure read, it cannot change the store. -/
def getUser (w : String) (s : Store) : Resp :=
  match s.find? (fun u => u.wallet_address == w) with
  | none => ⟨404, Body.error "User not found for that wallet address."⟩
  | some u => ⟨200, Body.userInfo u⟩

/-- GET `/referral/:userid`: a pure read, it cannot change the store. -/
def getReferral (uid : String) (s : Store) : Resp :=
  match s.find? (fun u => u.userid == uid) with
  | none => ⟨404, Body.error "Invalid user ID"⟩
  | some u => ⟨200, Body.userInfo u⟩

/-- POST `/bulk-lookup`.  `none` stands for a body whose `wallet_addresses`
is not an array.  `findAll` returns the rows whose wallet address is in the
list, and the handler folds them into an object keyed by wallet address.
A pure read: it cannot change the store. -/
def bulkLookup (body : Option (List String)) (s : Store) : Resp :=
  match body with
  | none => ⟨400, Body.error "wallet_addresses must be an array"⟩
  | some addrs =>
    let users := s.filter (fun u => addrs.contains u.wallet_address)
    ⟨200, Body.mapping (users.map (fun u => (u.wallet_address, u.userid)))⟩

/-- The stores reachable from the empty table by successful (status 201)
register and referred-register calls, with any generated ids, timestamps
and save outcomes.  The lookup operations (`getUser`, `getReferral`,
`bulkLookup`) take the store immutably and return only a response, so
interleaving them leaves the store untouched and they need no transition. -/
inductive Reachable : Store → Prop where
  | empty : Reachable []
  | reg {s : Store} {w id : String} {now : Nat} :
      Reachable s → (register w id now s).1.status = 201 →
      Reachable (register w id now s).2
  | regRef {s : Store} {w r id : String} {now : Nat} {ok : Bool} :
      Reachable s → (registerReferred w r id now ok s).1.status = 201 →
      Reachable (registerReferred w r id now ok s).2

/-- Number of rows whose `referred_by` is the given userid. -/
def countReferredBy (s : Store) (uid : String) : Nat :=
  s.countP (fun v => v.referred_by == some uid)

/-- The bookkeeping invariant the handlers maintain. -/
structure Inv (s : Store) : Prop where
  ids_nodup : (s.map User.userid).Nodup
  wallets_nodup : (s.map User.wallet_address).Nodup
  wallets_ne : ∀ u ∈ s, u.wallet_address ≠ ""
  rb_exists : ∀ u ∈ s, ∀ rid, u.referred_by = some rid → ∃ v ∈ s, v.userid = rid
  rb_ne_self : ∀ u ∈ s, u.referred_by ≠ some u.userid
  ru_exists : ∀ u ∈ s, ∀ x ∈ u.referred_users, ∃ v ∈ s, v.userid = x
  total_eq : ∀ u ∈ s, u.total_referrals = countReferredBy s u.userid
  len_eq : ∀ u ∈ s, u.referred_users.length = u.total_referrals

/-- A concrete store: the wallet `0xA` registered alone with generated id
`AAAAAAAAA` at time 0. -/
def storeA : Store := (register "0xA" "AAAAAAAAA" 0 []).2

/-- A concrete store: after `storeA`, the wallet `0xB` registered with
`referred_by = "AAAAAAAAA"` and generated id `BBBBBBBBB` at time 1. -/
def storeAB : Store := (registerReferred "0xB" "AAAAAAAAA" "BBBBBBBBB" 1 true storeA).2

/-! ### Basic facts about the store update -/

theorem applyReferral_userid (r id : String) (u : User) :
    (applyReferral r id u).userid = u.userid := by
  unfold applyReferral; split <;> rfl

theorem applyReferral_wallet (r id : String) (u : User) :
    (applyReferral r id u).wallet_address = u.wallet_address := by
  unfold applyReferral; split <;> rfl

theorem applyReferral_rb (r id : String) (u : User) :
    (applyReferral r id u).referred_by = u.referred_by := by
  unfold applyReferral; split <;> rfl

theorem applyReferral_of_ne {r : String} {u : User} (h : u.userid ≠ r) (id : String) :
    applyReferral r id u = u := by
  simp [applyReferral, h]

theorem applyReferral_of_eq {r : String} {u : User} (h : u.userid = r) (id : String) :
    applyReferral r id u =
      { u with referred_users := u.referred_users ++ [id],
               total_referrals := u.total_referrals + 1 } := by
  simp [applyReferral, h]

theorem dbInsert_ok {u : User} {s s' : Store} (h : dbInsert u s = Except.ok s') :
    (∀ v ∈ s, v.userid ≠ u.userid) ∧ (∀ v ∈ s, v.wallet_address ≠ u.wallet_address) ∧
      s' = s ++ [u] := by
  unfold dbInsert at h
  split at h
  · cases h
  · split at h
    · cases h
    · rename_i h1 h2
      cases h
      refine ⟨?_, ?_, rfl⟩
      · intro v hv he
        exact h1 (List.any_eq_true.mpr ⟨v, hv, by simp [he]⟩)
      · intro v hv he
        exact h2 (List.any_eq_true.mpr ⟨v, hv, by simp [he]⟩)

/-- A 201 from `/register` happens exactly on the straight-line success path:
the field was present, the wallet and the generated id were fresh, and the
response and the new store are as built there. -/
theorem register_succ {w id : String} {now : Nat} {s : Store}
    (h : (register w id now s).1.status = 201) :
    w ≠ "" ∧ (∀ u ∈ s, u.wallet_address ≠ w) ∧ (∀ u ∈ s, u.userid ≠ id) ∧
      register w id now s =
        (⟨201, Body.registered "User registered successfully" id w (referralLink id)⟩,
         s ++ [⟨id, w, none, [], 0, now⟩]) := by
  by_cases hw : w = ""
  · simp [register, hw] at h
  · rcases hfw : s.find? (fun u => u.wallet_address == w) with _ | u
    · rcases hins : dbInsert ⟨id, w, none, [], 0, now⟩ s with m | s1
      · simp [register, hw, hfw, hins] at h
      · obtain ⟨hid, _, hs1⟩ := dbInsert_ok hins
        subst hs1
        have hidf : ∀ u ∈ s, u.userid ≠ id := fun u hu => hid u hu
        have hWf : ∀ u ∈ s, u.wallet_address ≠ w := by
          intro u hu
          have := List.find?_eq_none.mp hfw u hu
          simpa using this
        have heq : register w id now s =
            ((⟨201, Body.registered "User registered successfully" id w (referralLink id)⟩ : Resp),
             s ++ [(⟨id, w, none, [], 0, now⟩ : User)]) := by
          simp [register, hw, hfw, hins]
        exact ⟨hw, hWf, hidf, heq⟩
    · simp [register, hw, hfw] at h

/-- A 201 from `/register-referred` happens exactly on the straight-line
success path: both fields present, wallet and generated id fresh, the
referrer found by `userid`, the insert accepted and the save accepted. -/
theorem registerReferred_succ {w r id : String} {now : Nat} {ok : Bool} {s : Store}
    (h : (registerReferred w r id now ok s).1.status = 201) :
    w ≠ "" ∧ r ≠ "" ∧ (∀ u ∈ s, u.wallet_address ≠ w) ∧ (∀ u ∈ s, u.userid ≠ id) ∧
      ∃ referrer, referrer ∈ s ∧ referrer.userid = r ∧
        registerReferred w r id now ok s =
          (⟨201, Body.referredOk "User registered with referral successfully" id w
              (referrer.total_referrals + 1)⟩,
           (s ++ [(⟨id, w, some r, [], 0, now⟩ : User)]).map (applyReferral r id)) := by
  by_cases hw : w = "" ∨ r = ""
  · simp [registerReferred, hw] at h
  · push_neg at hw
    rcases hfw : s.find? (fun u => u.wallet_address == w) with _ | u
    · rcases hfr : s.find? (fun u => u.userid == r) with _ | referrer
      · simp [registerReferred, hw.1, hw.2, hfw, hfr] at h
      · rcases hins : dbInsert ⟨id, w, some r, [], 0, now⟩ s with m | s1
        · simp [registerReferred, hw.1, hw.2, hfw, hfr, hins] at h
        · cases ok with
          | false => simp [registerReferred, hw.1, hw.2, hfw, hfr, hins] at h
          | true =>
            obtain ⟨hid, _, hs1⟩ := dbInsert_ok hins
            subst hs1
            have hidf : ∀ u ∈ s, u.userid ≠ id := fun u hu => hid u hu
            have hWf : ∀ u ∈ s, u.wallet_address ≠ w := by
              intro u hu
              have := List.find?_eq_none.mp hfw u hu
              simpa using this
            have hrid : referrer.userid = r := by simpa using List.find?_some hfr
            have heq : registerReferred w r id now true s =
                ((⟨201, Body.referredOk "User registered with referral successfully" id w
                    (referrer.total_referrals + 1)⟩ : Resp),
                 (s ++ [(⟨id, w, some r, [], 0, now⟩ : User)]).map (applyReferral r id)) := by
              simp [registerReferred, hw.1, hw.2, hfw, hfr, hins]
            exact ⟨hw.1, hw.2, hWf, hidf,
              referrer, List.mem_of_find?_eq_some hfr, hrid, heq⟩
    · simp [registerReferred, hw.1, hw.2, hfw] at h

/-! ### The invariant is maintained -/

theorem inv_nil : Inv ([] : Store) := by
  constructor <;> simp [countReferredBy]

theorem countReferredBy_append (s : Store) (u : User) (uid : String) :
    countReferredBy (s ++ [u]) uid =
      countReferredBy s uid + (if u.referred_by == some uid then 1 else 0) := by
  simp [countReferredBy, List.countP_append, List.countP_cons]

theorem countReferredBy_map (s : Store) (r id uid : String) :
    countReferredBy (s.map (applyReferral r id)) uid = countReferredBy s uid := by
  unfold countReferredBy
  rw [List.countP_map]
  exact List.countP_congr (fun v _ => by simp [Function.comp, applyReferral_rb])

theorem map_userid_applyReferral (r id : String) (l : Store) :
    (l.map (applyReferral r id)).map User.userid = l.map User.userid := by
  rw [List.map_map]
  exact List.map_congr_left (fun a _ => applyReferral_userid r id a)

theorem map_wallet_applyReferral (r id : String) (l : Store) :
    (l.map (applyReferral r id)).map User.wallet_address = l.map User.wallet_address := by
  rw [List.map_map]
  exact List.map_congr_left (fun a _ => applyReferral_wallet r id a)

theorem countReferredBy_eq_zero {s : Store} (hInv : Inv s) {id : String}
    (hid : ∀ u ∈ s, u.userid ≠ id) : countReferredBy s id = 0 := by
  rw [countReferredBy, List.countP_eq_zero]
  intro v hv hvb
  have hvid : v.referred_by = some id := by simpa using hvb
  obtain ⟨x, hx, hxid⟩ := hInv.rb_exists v hv id hvid
  exact hid x hx hxid

/-- Inserting a fresh unreferred row preserves the invariant. -/
theorem Inv.insert_fresh {s : Store} (hInv : Inv s) {w id : String} {now : Nat}
    (hw : w ≠ "") (hW : ∀ u ∈ s, u.wallet_address ≠ w) (hid : ∀ u ∈ s, u.userid ≠ id) :
    Inv (s ++ [(⟨id, w, none, [], 0, now⟩ : User)]) := by
  have hcnt : ∀ uid, countReferredBy (s ++ [(⟨id, w, none, [], 0, now⟩ : User)]) uid =
      countReferredBy s uid := by
    intro uid
    rw [countReferredBy_append]
    simp
  constructor
  · rw [List.map_append, List.nodup_append]
    refine ⟨hInv.ids_nodup, by simp, ?_⟩
    intro a ha hb
    simp only [List.map_cons, List.map_nil, List.mem_singleton] at hb
    subst hb
    obtain ⟨u, hu, huid⟩ := List.mem_map.mp ha
    exact hid u hu huid
  · rw [List.map_append, List.nodup_append]
    refine ⟨hInv.wallets_nodup, by simp, ?_⟩
    intro a ha hb
    simp only [List.map_cons, List.map_nil, List.mem_singleton] at hb
    subst hb
    obtain ⟨u, hu, huw⟩ := List.mem_map.mp ha
    exact hW u hu huw
  · intro u hu
    rcases List.mem_append.mp hu with hu | hu
    · exact hInv.wallets_ne u hu
    · simp only [List.mem_singleton] at hu
      subst hu
      exact hw
  · intro u hu rid hrb
    rcases List.mem_append.mp hu with hu | hu
    · obtain ⟨x, hx, hxid⟩ := hInv.rb_exists u hu rid hrb
      exact ⟨x, List.mem_append_left _ hx, hxid⟩
    · simp only [List.mem_singleton] at hu
      subst hu
      cases hrb
  · intro u hu
    rcases List.mem_append.mp hu with hu | hu
    · exact hInv.rb_ne_self u hu
    · simp only [List.mem_singleton] at hu
      subst hu
      simp
  · intro u hu x hx
    rcases List.mem_append.mp hu with hu | hu
    · obtain ⟨y, hy, hyid⟩ := hInv.ru_exists u hu x hx
      exact ⟨y, List.mem_append_left _ hy, hyid⟩
    · simp only [List.mem_singleton] at hu
      subst hu
      simp at hx
  · intro u hu
    rw [hcnt]
    rcases List.mem_append.mp hu with hu | hu
    · exact hInv.total_eq u hu
    · simp only [List.mem_singleton] at hu
      subst hu
      simpa using (countReferredBy_eq_zero hInv hid).symm
  · intro u hu
    rcases List.mem_append.mp hu with hu | hu
    · exact hInv.len_eq u hu
    · simp only [List.mem_singleton] at hu
      subst hu
      rfl

/-- The referred-registration transition (fresh row with `referred_by`
pointing at the existing referrer, followed by the referrer's row update)
preserves the invariant. -/
theorem Inv.refer_step {s : Store} (hInv : Inv s) {w r id : String} {now : Nat}
    (hw : w ≠ "") (hW : ∀ u ∈ s, u.wallet_address ≠ w) (hid : ∀ u ∈ s, u.userid ≠ id)
    {referrer : User} (hmem : referrer ∈ s) (hr : referrer.userid = r) :
    Inv ((s ++ [(⟨id, w, some r, [], 0, now⟩ : User)]).map (applyReferral r id)) := by
  have hrid : r ≠ id := fun he => hid referrer hmem (he ▸ hr)
  have hnid : (⟨id, w, some r, [], 0, now⟩ : User).userid ≠ r := Ne.symm hrid
  have hcnt : ∀ uid,
      countReferredBy ((s ++ [(⟨id, w, some r, [], 0, now⟩ : User)]).map (applyReferral r id)) uid
        = countReferredBy s uid + (if r = uid then 1 else 0) := by
    intro uid
    rw [countReferredBy_map, countReferredBy_append]
    congr 1
    simp
  have hids : ((s ++ [(⟨id, w, some r, [], 0, now⟩ : User)]).map (applyReferral r id)).map
      User.userid = s.map User.userid ++ [id] := by
    rw [map_userid_applyReferral, List.map_append]
    rfl
  have hwals : ((s ++ [(⟨id, w, some r, [], 0, now⟩ : User)]).map (applyReferral r id)).map
      User.wallet_address = s.map User.wallet_address ++ [w] := by
    rw [map_wallet_applyReferral, List.map_append]
    rfl
  constructor
  · rw [hids, List.nodup_append]
    refine ⟨hInv.ids_nodup, by simp, ?_⟩
    intro a ha hb
    simp only [List.mem_singleton] at hb
    subst hb
    obtain ⟨u, hu, huid⟩ := List.mem_map.mp ha
    exact hid u hu huid
  · rw [hwals, List.nodup_append]
    refine ⟨hInv.wallets_nodup, by simp, ?_⟩
    intro a ha hb
    simp only [List.mem_singleton] at hb
    subst hb
    obtain ⟨u, hu, huw⟩ := List.mem_map.mp ha
    exact hW u hu huw
  · intro u hu
    obtain ⟨v, hv, rfl⟩ := List.mem_map.mp hu
    rw [applyReferral_wallet]
    rcases List.mem_append.mp hv with hv | hv
    · exact hInv.wallets_ne v hv
    · simp only [List.mem_singleton] at hv
      subst hv
      exact hw
  · intro u hu rid hrb
    obtain ⟨v, hv, rfl⟩ := List.mem_map.mp hu
    rw [applyReferral_rb] at hrb
    rcases List.mem_append.mp hv with hv | hv
    · obtain ⟨x, hx, hxid⟩ := hInv.rb_exists v hv rid hrb
      refine ⟨applyReferral r id x,
        List.mem_map_of_mem _ (List.mem_append_left _ hx), ?_⟩
      rw [applyReferral_userid]
      exact hxid
    · simp only [List.mem_singleton] at hv
      subst hv
      have hrr : rid = r := by simpa using hrb.symm
      subst hrr
      refine ⟨applyReferral rid id referrer,
        List.mem_map_of_mem _ (List.mem_append_left _ hmem), ?_⟩
      rw [applyReferral_userid]
      exact hr
  · intro u hu
    obtain ⟨v, hv, rfl⟩ := List.mem_map.mp hu
    rw [applyReferral_rb, applyReferral_userid]
    rcases List.mem_append.mp hv with hv | hv
    · exact hInv.rb_ne_self v hv
    · simp only [List.mem_singleton] at hv
      subst hv
      simpa using hrid
  · intro u hu x hx
    obtain ⟨v, hv, rfl⟩ := List.mem_map.mp hu
    rcases List.mem_append.mp hv with hv | hv
    · by_cases hvr : v.userid = r
      · rw [applyReferral_of_eq hvr] at hx
        simp only [List.mem_append, List.mem_singleton] at hx
        rcases hx with hx | hx
        · obtain ⟨y, hy, hyid⟩ := hInv.ru_exists v hv x hx
          refine ⟨applyReferral r id y,
            List.mem_map_of_mem _ (List.mem_append_left _ hy), ?_⟩
          rw [applyReferral_userid]
          exact hyid
        · refine ⟨applyReferral r id (⟨id, w, some r, [], 0, now⟩ : User),
            List.mem_map_of_mem _ (List.mem_append_right _ (by simp)), ?_⟩
          rw [applyReferral_userid]
          exact hx.symm
      · rw [applyReferral_of_ne hvr] at hx
        obtain ⟨y, hy, hyid⟩ := hInv.ru_exists v hv x hx
        refine ⟨applyReferral r id y,
          List.mem_map_of_mem _ (List.mem_append_left _ hy), ?_⟩
        rw [applyReferral_userid]
        exact hyid
    · simp only [List.mem_singleton] at hv
      subst hv
      rw [applyReferral_of_ne hnid] at hx
      simp at hx
  · intro u hu
    obtain ⟨v, hv, rfl⟩ := List.mem_map.mp hu
    rw [applyReferral_userid, hcnt]
    rcases List.mem_append.mp hv with hv | hv
    · by_cases hvr : v.userid = r
      · rw [applyReferral_of_eq hvr]
        have := hInv.total_eq v hv
        simp [hvr, this]
      · rw [applyReferral_of_ne hvr]
        have hne : ¬(r = v.userid) := fun he => hvr he.symm
        rw [if_neg hne]
        simpa using hInv.total_eq v hv
    · simp only [List.mem_singleton] at hv
      subst hv
      rw [applyReferral_of_ne hnid]
      have h0 : countReferredBy s (⟨id, w, some r, [], 0, now⟩ : User).userid = 0 :=
        countReferredBy_eq_zero hInv hid
      rw [h0, if_neg (show ¬(r = (⟨id, w, some r, [], 0, now⟩ : User).userid) from hrid)]
  · intro u hu
    obtain ⟨v, hv, rfl⟩ := List.mem_map.mp hu
    rcases List.mem_append.mp hv with hv | hv
    · by_cases hvr : v.userid = r
      · rw [applyReferral_of_eq hvr]
        simpa using hInv.len_eq v hv
      · rw [applyReferral_of_ne hvr]
        exact hInv.len_eq v hv
    · simp only [List.mem_singleton] at hv
      subst hv
      rw [applyReferral_of_ne hnid]
      rfl

/-- Every reachable store satisfies the bookkeeping invariant. -/
theorem reachable_inv {s : Store} (h : Reachable s) : Inv s := by
  induction h with
  | empty => exact inv_nil
  | reg _ hs ih =>
    obtain ⟨hw, hW, hid, heq⟩ := register_succ hs
    rw [heq]
    exact ih.insert_fresh hw hW hid
  | regRef _ hs ih =>
    obtain ⟨hw, hr, hW, hid, referrer, hmem, hrid, heq⟩ := registerReferred_succ hs
    rw [heq]
    exact ih.refer_step hw hW hid hmem hrid

/-! ### Reachability of the concrete stores -/

theorem storeA_reachable : Reachable storeA :=
  Reachable.reg Reachable.empty rfl

theorem storeAB_reachable : Reachable storeAB :=
  Reachable.regRef storeA_reachable rfl

/-! ### The claims -/

/-- C1: in every store state reachable by any sequence of successful
register, referred-register and lookup operations, each user's
`total_referrals` equals the number of other users whose `referred_by`
equals that user's identifier, and equals the length of that user's
`referred_users` list.  (The lookup handlers `getUser`, `getReferral` and
`bulkLookup` take the store immutably and return only a response, so they
cannot alter the state and `Reachable` closes over them trivially.) -/
theorem C1_total_referrals_invariant {s : Store} (h : Reachable s) :
    ∀ u ∈ s,
      u.total_referrals =
          s.countP (fun v => v.userid != u.userid && v.referred_by == some u.userid) ∧
        u.referred_users.length = u.total_referrals := by
  intro u hu
  have hInv := reachable_inv h
  refine ⟨?_, hInv.len_eq u hu⟩
  rw [hInv.total_eq u hu, countReferredBy]
  apply List.countP_congr
  intro v hv
  constructor
  · intro hvb
    have hrb : v.referred_by = some u.userid := by simpa using hvb
    have hne : v.userid ≠ u.userid := by
      intro he
      have hvu : v = u := List.inj_on_of_nodup_map hInv.ids_nodup hv hu he
      subst hvu
      exact hInv.rb_ne_self v hv hrb
    simp [hne, hrb]
  · intro hvb
    simp only [Bool.and_eq_true] at hvb
    exact hvb.2

/-- C1 witness: the invariant instantiated at the referrer's row in the
concrete two-user store. -/
theorem C1_witness :
    (⟨"AAAAAAAAA", "0xA", none, ["BBBBBBBBB"], 1, 0⟩ : User) ∈ storeAB ∧
      ((⟨"AAAAAAAAA", "0xA", none, ["BBBBBBBBB"], 1, 0⟩ : User).total_referrals =
          storeAB.countP (fun v =>
            v.userid != (⟨"AAAAAAAAA", "0xA", none, ["BBBBBBBBB"], 1, 0⟩ : User).userid &&
            v.referred_by == some (⟨"AAAAAAAAA", "0xA", none, ["BBBBBBBBB"], 1, 0⟩ : User).userid) ∧
        (⟨"AAAAAAAAA", "0xA", none, ["BBBBBBBBB"], 1, 0⟩ : User).referred_users.length =
          (⟨"AAAAAAAAA", "0xA", none, ["BBBBBBBBB"], 1, 0⟩ : User).total_referrals) :=
  ⟨by decide, C1_total_referrals_invariant storeAB_reachable _ (by decide)⟩

/-- C3: registering a wallet address that already has a row answers 400
with the duplicate-wallet error body and leaves the store exactly as it
was: no row is inserted. -/
theorem C3_duplicate_register_conflict {s : Store} (h : Reachable s)
    {w : String} (hdup : ∃ u ∈ s, u.wallet_address = w) (id : String) (now : Nat) :
    register w id now s =
      (⟨400, Body.error "This wallet address is already registered."⟩, s) := by
  have hInv := reachable_inv h
  obtain ⟨u, hu, hwa⟩ := hdup
  have hwne : w ≠ "" := hwa ▸ hInv.wallets_ne u hu
  rcases hfw : s.find? (fun v => v.wallet_address == w) with _ | v
  · exfalso
    have := List.find?_eq_none.mp hfw u hu
    simp [hwa] at this
  · simp [register, hwne, hfw]

/-- C3 witness: registering `0xA` a second time on the concrete one-user
store. -/
theorem C3_witness :
    (∃ u ∈ storeA, u.wallet_address = "0xA") ∧
      register "0xA" "CCCCCCCCC" 2 storeA =
        (⟨400, Body.error "This wallet address is already registered."⟩, storeA) :=
  ⟨by decide, C3_duplicate_register_conflict storeA_reachable (by decide) "CCCCCCCCC" 2⟩

/-- C9: no reachable store contains a user whose `referred_by` is their own
identifier: the referrer is resolved before the new identifier exists, and
a generated identifier colliding with any existing `userid` is rejected by
the primary-key constraint at insert instead of creating the row. -/
theorem C9_no_self_referral {s : Store} (h : Reachable s) :
    ∀ u ∈ s, u.referred_by ≠ some u.userid :=
  (reachable_inv h).rb_ne_self

/-- C9 witness: the referred row of the concrete two-user store is not its
own referrer. -/
theorem C9_witness :
    (⟨"BBBBBBBBB", "0xB", some "AAAAAAAAA", [], 0, 1⟩ : User) ∈ storeAB ∧
      (⟨"BBBBBBBBB", "0xB", some "AAAAAAAAA", [], 0, 1⟩ : User).referred_by ≠
        some (⟨"BBBBBBBBB", "0xB", some "AAAAAAAAA", [], 0, 1⟩ : User).userid :=
  ⟨by decide, C9_no_self_referral storeAB_reachable _ (by decide)⟩

/-- C2: every successful referred registration leaves a referrer row whose
`total_referrals` is exactly one more than before, whose `referred_users`
is the old list with the new identifier appended (so all prior entries are
preserved and the new identifier occurs exactly once), and the response
reports the updated counter as `referrer_new_total`. -/
theorem C2_referred_success_updates_referrer {s : Store} (h : Reachable s)
    {w r id : String} {now : Nat} {ok : Bool}
    (hs : (registerReferred w r id now ok s).1.status = 201) :
    ∃ R ∈ s, R.userid = r ∧
      ∃ R2 ∈ (registerReferred w r id now ok s).2, R2.userid = r ∧
        R2.total_referrals = R.total_referrals + 1 ∧
        R2.referred_users = R.referred_users ++ [id] ∧
        R2.referred_users.count id = 1 ∧
        (registerReferred w r id now ok s).1.body =
          Body.referredOk "User registered with referral successfully" id w
            R2.total_referrals := by
  have hInv := reachable_inv h
  obtain ⟨hw, hr, hW, hid, R, hmem, hRr, heq⟩ := registerReferred_succ hs
  have hnotin : id ∉ R.referred_users := by
    intro hin
    obtain ⟨y, hy, hyid⟩ := hInv.ru_exists R hmem id hin
    exact hid y hy hyid
  refine ⟨R, hmem, hRr, applyReferral r id R, ?_, ?_, ?_, ?_, ?_, ?_⟩
  · rw [heq]
    exact List.mem_map_of_mem _ (List.mem_append_left _ hmem)
  · rw [applyReferral_userid]
    exact hRr
  · rw [applyReferral_of_eq hRr]
  · rw [applyReferral_of_eq hRr]
  · rw [applyReferral_of_eq hRr]
    have hcount : (R.referred_users ++ [id]).count id = 1 := by
      rw [List.count_append, List.count_eq_zero.mpr hnotin, List.count_singleton]
      simp
    simpa using hcount
  · rw [heq, applyReferral_of_eq hRr]

/-- C2 witness: the referred registration of `0xB` on the concrete one-user
store. -/
theorem C2_witness :
    (registerReferred "0xB" "AAAAAAAAA" "BBBBBBBBB" 1 true storeA).1.status = 201 ∧
      (∃ R ∈ storeA, R.userid = "AAAAAAAAA" ∧
        ∃ R2 ∈ (registerReferred "0xB" "AAAAAAAAA" "BBBBBBBBB" 1 true storeA).2,
          R2.userid = "AAAAAAAAA" ∧
          R2.total_referrals = R.total_referrals + 1 ∧
          R2.referred_users = R.referred_users ++ ["BBBBBBBBB"] ∧
          R2.referred_users.count "BBBBBBBBB" = 1 ∧
          (registerReferred "0xB" "AAAAAAAAA" "BBBBBBBBB" 1 true storeA).1.body =
            Body.referredOk "User registered with referral successfully" "BBBBBBBBB" "0xB"
              R2.total_referrals) :=
  ⟨rfl, C2_referred_success_updates_referrer storeA_reachable rfl⟩

/-- C4 as frozen is too strong: for an already-registered wallet and the
empty `referred_by` value, the handler answers with the missing-field
validation error, not the duplicate-wallet conflict error, because the
field-presence check runs first. -/
theorem C4_counterexample :
    (∃ u ∈ storeA, u.wallet_address = "0xA") ∧
      (registerReferred "0xA" "" "BBBBBBBBB" 1 true storeA).1 ≠
        (⟨400, Body.error "This wallet address is already registered."⟩ : Resp) ∧
      (registerReferred "0xA" "" "BBBBBBBBB" 1 true storeA).1 =
        (⟨400, Body.error "Missing wallet_address or referred_by"⟩ : Resp) := by
  decide

/-- C4 amended: for an already-registered wallet and any non-empty
`referred_by` value (whether or not it names an existing referrer) the
handler returns the 400 duplicate-wallet conflict and the store is
unchanged; for the empty value it returns the 400 missing-field error; in
no case does it return the 404 referrer-not-found error, because the
duplicate-wallet check runs before the referrer-existence check. -/
theorem C4_duplicate_conflict_before_referrer {s : Store} (h : Reachable s)
    {w : String} (hdup : ∃ u ∈ s, u.wallet_address = w) (r id : String) (now : Nat)
    (ok : Bool) :
    (r ≠ "" → registerReferred w r id now ok s =
        (⟨400, Body.error "This wallet address is already registered."⟩, s)) ∧
      (r = "" → registerReferred w r id now ok s =
        (⟨400, Body.error "Missing wallet_address or referred_by"⟩, s)) ∧
      (registerReferred w r id now ok s).1.status ≠ 404 := by
  have hInv := reachable_inv h
  obtain ⟨u, hu, hwa⟩ := hdup
  have hwne : w ≠ "" := hwa ▸ hInv.wallets_ne u hu
  by_cases hre : r = ""
  · subst hre
    have heq : registerReferred w "" id now ok s =
        (⟨400, Body.error "Missing wallet_address or referred_by"⟩, s) := by
      simp [registerReferred]
    refine ⟨fun hc => absurd rfl hc, fun _ => heq, ?_⟩
    rw [heq]
    simp
  · rcases hfw : s.find? (fun v => v.wallet_address == w) with _ | v
    · exfalso
      have := List.find?_eq_none.mp hfw u hu
      simp [hwa] at this
    · have heq : registerReferred w r id now ok s =
          (⟨400, Body.error "This wallet address is already registered."⟩, s) := by
        simp [registerReferred, hwne, hre, hfw]
      refine ⟨fun _ => heq, fun hc => absurd hc hre, ?_⟩
      rw [heq]
      simp

/-- C4 witness: the amended statement at the concrete one-user store with
the non-empty referrer value `AAAAAAAAA`. -/
theorem C4_witness :
    (∃ u ∈ storeA, u.wallet_address = "0xA") ∧
      ((("AAAAAAAAA" : String) ≠ "" →
          registerReferred "0xA" "AAAAAAAAA" "BBBBBBBBB" 1 true storeA =
            (⟨400, Body.error "This wallet address is already registered."⟩, storeA)) ∧
        (("AAAAAAAAA" : String) = "" →
          registerReferred "0xA" "AAAAAAAAA" "BBBBBBBBB" 1 true storeA =
            (⟨400, Body.error "Missing wallet_address or referred_by"⟩, storeA)) ∧
        (registerReferred "0xA" "AAAAAAAAA" "BBBBBBBBB" 1 true storeA).1.status ≠ 404) :=
  ⟨by decide,
   C4_duplicate_conflict_before_referrer storeA_reachable (by decide) "AAAAAAAAA"
     "BBBBBBBBB" 1 true⟩

/-- C5: the code violates the no-partial-side-effects requirement.  When
the store rejects `referrer.save()` after `User.create` already succeeded,
the call fails (500) yet the freshly inserted row for the new wallet
remains in the store, so a failed referred registration does not leave the
store unchanged. -/
theorem C5_save_failure_leaves_partial_row :
    (registerReferred "0xB" "AAAAAAAAA" "BBBBBBBBB" 1 false storeA).1.status = 500 ∧
      (∃ u ∈ (registerReferred "0xB" "AAAAAAAAA" "BBBBBBBBB" 1 false storeA).2,
        u.wallet_address = "0xB") ∧
      (registerReferred "0xB" "AAAAAAAAA" "BBBBBBBBB" 1 false storeA).2 ≠ storeA := by
  decide

/-- C6 as frozen is false: when the pre-check misses the duplicate and the
store's insert rejects the row (here: the generated userid collides with an
existing primary key), the generic catch answers 500, not the 400 conflict
shape. -/
theorem C6_counterexample :
    (∃ u ∈ storeA, u.userid = "AAAAAAAAA") ∧
      (∀ u ∈ storeA, u.wallet_address ≠ "0xB") ∧
      (register "0xB" "AAAAAAAAA" 1 storeA).1.status = 500 ∧
      (register "0xB" "AAAAAAAAA" 1 storeA).1.status ≠ 400 := by
  decide

/-- C6 amended: a uniqueness rejection at insert time (after the pre-checks
passed) is not translated to the 400 conflict shape; it reaches the generic
catch and surfaces as status 500 with an `{error: message}` body, the store
unchanged, for both registration operations. -/
theorem C6_insert_violation_surfaces_500 {s : Store} {w id : String} {now : Nat}
    (hw : w ≠ "") (hW : ∀ u ∈ s, u.wallet_address ≠ w) (hcol : ∃ u ∈ s, u.userid = id)
    (r : String) (ok : Bool) :
    ((register w id now s).1.status = 500 ∧
        (∃ m, (register w id now s).1.body = Body.error m) ∧
        (register w id now s).2 = s) ∧
      (r ≠ "" → (∃ u ∈ s, u.userid = r) →
        (registerReferred w r id now ok s).1.status = 500 ∧
          (∃ m, (registerReferred w r id now ok s).1.body = Body.error m) ∧
          (registerReferred w r id now ok s).2 = s) := by
  have hfw : s.find? (fun v => v.wallet_address == w) = none :=
    List.find?_eq_none.mpr (fun v hv => by simpa using hW v hv)
  obtain ⟨u, hu, huid⟩ := hcol
  constructor
  · have hins : dbInsert (⟨id, w, none, [], 0, now⟩ : User) s =
        Except.error "duplicate key value violates unique constraint" := by
      unfold dbInsert
      rw [if_pos (List.any_eq_true.mpr ⟨u, hu, by simp [huid]⟩)]
    have heq : register w id now s =
        ((⟨500, Body.error "duplicate key value violates unique constraint"⟩ : Resp), s) := by
      simp [register, hw, hfw, hins]
    rw [heq]
    exact ⟨rfl, ⟨_, rfl⟩, rfl⟩
  · intro hr hrex
    obtain ⟨x, hx, hxid⟩ := hrex
    rcases hfr : s.find? (fun v => v.userid == r) with _ | R
    · exfalso
      have := List.find?_eq_none.mp hfr x hx
      simp [hxid] at this
    · have hins : dbInsert (⟨id, w, some r, [], 0, now⟩ : User) s =
          Except.error "duplicate key value violates unique constraint" := by
        unfold dbInsert
        rw [if_pos (List.any_eq_true.mpr ⟨u, hu, by simp [huid]⟩)]
      have heq : registerReferred w r id now ok s =
          ((⟨500, Body.error "duplicate key value violates unique constraint"⟩ : Resp), s) := by
        simp [registerReferred, hw, hr, hfw, hfr, hins]
      rw [heq]
      exact ⟨rfl, ⟨_, rfl⟩, rfl⟩

/-- C6 witness: the amended statement at the concrete one-user store, with
the generated id colliding with the existing primary key. -/
theorem C6_witness :
    (("0xB" : String) ≠ "" ∧ (∀ u ∈ storeA, u.wallet_address ≠ "0xB") ∧
        (∃ u ∈ storeA, u.userid = "AAAAAAAAA")) ∧
      (((register "0xB" "AAAAAAAAA" 1 storeA).1.status = 500 ∧
          (∃ m, (register "0xB" "AAAAAAAAA" 1 storeA).1.body = Body.error m) ∧
          (register "0xB" "AAAAAAAAA" 1 storeA).2 = storeA) ∧
        (("AAAAAAAAA" : String) ≠ "" → (∃ u ∈ storeA, u.userid = "AAAAAAAAA") →
          (registerReferred "0xB" "AAAAAAAAA" "AAAAAAAAA" 1 true storeA).1.status = 500 ∧
            (∃ m, (registerReferred "0xB" "AAAAAAAAA" "AAAAAAAAA" 1 true storeA).1.body =
              Body.error m) ∧
            (registerReferred "0xB" "AAAAAAAAA" "AAAAAAAAA" 1 true storeA).2 = storeA)) :=
  ⟨⟨by decide, by decide, by decide⟩,
   C6_insert_violation_surfaces_500 (by decide) (by decide) (by decide) "AAAAAAAAA" true⟩

/-- C7: bulk lookup answers 200 with a mapping whose entries are exactly
the input addresses that exist in the store, each mapped to that user's
identifier, unknown addresses silently omitted; permuting the input list
gives the identical mapping; and a body whose `wallet_addresses` is not an
array answers 400. -/
theorem C7_bulkLookup_mapping {s : Store} (_h : Reachable s) (addrs addrs2 : List String) :
    (∃ m, bulkLookup (some addrs) s = ⟨200, Body.mapping m⟩ ∧
        ∀ a uid, (a, uid) ∈ m ↔ a ∈ addrs ∧ ∃ u ∈ s, u.wallet_address = a ∧ u.userid = uid) ∧
      (addrs.Perm addrs2 → bulkLookup (some addrs) s = bulkLookup (some addrs2) s) ∧
      bulkLookup none s = ⟨400, Body.error "wallet_addresses must be an array"⟩ := by
  refine ⟨⟨_, rfl, ?_⟩, ?_, rfl⟩
  · intro a uid
    constructor
    · intro hm
      obtain ⟨u, hu, hpair⟩ := List.mem_map.mp hm
      obtain ⟨hus, hcont⟩ := List.mem_filter.mp hu
      have h1 : u.wallet_address = a := congrArg Prod.fst hpair
      have h2 : u.userid = uid := congrArg Prod.snd hpair
      exact ⟨h1 ▸ List.elem_iff.mp hcont, u, hus, h1, h2⟩
    · rintro ⟨haddr, u, hu, hwa, hid⟩
      subst hwa
      subst hid
      exact List.mem_map_of_mem _
        (List.mem_filter.mpr ⟨hu, List.elem_iff.mpr haddr⟩)
  · intro hperm
    have hf : s.filter (fun u => addrs.contains u.wallet_address) =
        s.filter (fun u => addrs2.contains u.wallet_address) := by
      apply List.filter_congr
      intro x _
      by_cases hx : x.wallet_address ∈ addrs
      · have h1 : addrs.contains x.wallet_address = true := List.elem_iff.mpr hx
        have h2 : addrs2.contains x.wallet_address = true :=
          List.elem_iff.mpr (hperm.mem_iff.mp hx)
        exact h1.trans h2.symm
      · have h1 : addrs.contains x.wallet_address = false := by
          cases hcb : addrs.contains x.wallet_address
          · rfl
          · exact absurd (List.elem_iff.mp hcb) hx
        have h2 : addrs2.contains x.wallet_address = false := by
          cases hcb : addrs2.contains x.wallet_address
          · rfl
          · exact absurd (hperm.mem_iff.mpr (List.elem_iff.mp hcb)) hx
        exact h1.trans h2.symm
    simp only [bulkLookup, hf]

/-- C7 witness: a mixed known/unknown input and a permutation of it, on the
concrete two-user store. -/
theorem C7_witness :
    (∃ m, bulkLookup (some ["0xB", "0xZ", "0xA"]) storeAB = ⟨200, Body.mapping m⟩ ∧
        ∀ a uid, (a, uid) ∈ m ↔ a ∈ ["0xB", "0xZ", "0xA"] ∧
          ∃ u ∈ storeAB, u.wallet_address = a ∧ u.userid = uid) ∧
      (List.Perm ["0xB", "0xZ", "0xA"] ["0xA", "0xB", "0xZ"] →
        bulkLookup (some ["0xB", "0xZ", "0xA"]) storeAB =
          bulkLookup (some ["0xA", "0xB", "0xZ"]) storeAB) ∧
      bulkLookup none storeAB = ⟨400, Body.error "wallet_addresses must be an array"⟩ :=
  C7_bulkLookup_mapping storeAB_reachable ["0xB", "0xZ", "0xA"] ["0xA", "0xB", "0xZ"]

/-- C8: registering a non-empty, unregistered wallet (with the generated
identifier not colliding with an existing one) inserts exactly one new row
with `total_referrals = 0`, `referred_by = null`, `referred_users = []`,
and answers 201 with the new identifier and the wallet address. -/
theorem C8_register_inserts_fresh_row {s : Store} {w id : String} {now : Nat}
    (hw : w ≠ "") (hW : ∀ u ∈ s, u.wallet_address ≠ w) (hid : ∀ u ∈ s, u.userid ≠ id) :
    register w id now s =
      (⟨201, Body.registered "User registered successfully" id w (referralLink id)⟩,
       s ++ [(⟨id, w, none, [], 0, now⟩ : User)]) := by
  have hfw : s.find? (fun u => u.wallet_address == w) = none :=
    List.find?_eq_none.mpr (fun u hu => by simpa using hW u hu)
  have h1 : s.any (fun v => v.userid == (⟨id, w, none, [], 0, now⟩ : User).userid) = false :=
    List.any_eq_false.mpr (fun v hv => by simpa using hid v hv)
  have h2 : s.any (fun v =>
      v.wallet_address == (⟨id, w, none, [], 0, now⟩ : User).wallet_address) = false :=
    List.any_eq_false.mpr (fun v hv => by simpa using hW v hv)
  have hins : dbInsert (⟨id, w, none, [], 0, now⟩ : User) s =
      Except.ok (s ++ [(⟨id, w, none, [], 0, now⟩ : User)]) := by
    unfold dbInsert
    rw [h1, h2]
    rfl
  simp [register, hw, hfw, hins]

/-- C8 witness: registering the fresh wallet `0xC` on the concrete two-user
store. -/
theorem C8_witness :
    (("0xC" : String) ≠ "" ∧ (∀ u ∈ storeAB, u.wallet_address ≠ "0xC") ∧
        (∀ u ∈ storeAB, u.userid ≠ "CCCCCCCCC")) ∧
      register "0xC" "CCCCCCCCC" 2 storeAB =
        (⟨201, Body.registered "User registered successfully" "CCCCCCCCC" "0xC"
            (referralLink "CCCCCCCCC")⟩,
         storeAB ++ [(⟨"CCCCCCCCC", "0xC", none, [], 0, 2⟩ : User)]) :=
  ⟨⟨by decide, by decide, by decide⟩,
   C8_register_inserts_fresh_row (by decide) (by decide) (by decide)⟩

/-- C10: the bulk-lookup mapping never repeats a key, even when the input
list repeats an address (each stored row contributes one entry and stored
wallet addresses are unique), and the empty input array answers 200 with an
empty mapping. -/
theorem C10_bulkLookup_nodup_keys {s : Store} (h : Reachable s) (addrs : List String) :
    (∃ m, bulkLookup (some addrs) s = ⟨200, Body.mapping m⟩ ∧ (m.map Prod.fst).Nodup) ∧
      bulkLookup (some []) s = ⟨200, Body.mapping []⟩ := by
  have hInv := reachable_inv h
  constructor
  · refine ⟨_, rfl, ?_⟩
    have hmf : ((s.filter (fun u => addrs.contains u.wallet_address)).map
        (fun u => (u.wallet_address, u.userid))).map Prod.fst =
        (s.filter (fun u => addrs.contains u.wallet_address)).map User.wallet_address := by
      rw [List.map_map]
      rfl
    rw [hmf]
    exact List.Nodup.sublist (List.Sublist.map _ (List.filter_sublist s)) hInv.wallets_nodup
  · have hempty : s.filter (fun u => List.contains [] u.wallet_address) = [] := by
      apply List.eq_nil_of_length_eq_zero
      rw [← List.countP_eq_length_filter]
      exact List.countP_eq_zero.mpr (fun a _ => by simp)
    simp only [bulkLookup, hempty]
    rfl

/-- C10 witness: an input repeating `0xA` on the concrete two-user store. -/
theorem C10_witness :
    (∃ m, bulkLookup (some ["0xA", "0xA", "0xB"]) storeAB = ⟨200, Body.mapping m⟩ ∧
        (m.map Prod.fst).Nodup) ∧
      bulkLookup (some []) storeAB = ⟨200, Body.mapping []⟩ :=
  C10_bulkLookup_nodup_keys storeAB_reachable ["0xA", "0xA", "0xB"]

end Referral
